import Mathlib

/-!
Verification of the impersonation-rule management subsystem of
`dataikuapi/dss/admin.py` (class `DSSGeneralSettings` and the rule builder
classes `DSSUserImpersonationRule` / `DSSGroupImpersonationRule`), and of the
error handling of `DSSCodeEnv.delete`.

Rule records are Python dicts whose values (for the fields this subsystem
reads and writes) are strings or `None`.  A field of a record is therefore
modelled as `Option JVal`: `none` means the key is absent from the dict,
`some JVal.vnull` means the key is present with value `None`, and
`some (JVal.vstr s)` means the key is present with string value `s`.
This keeps Python dict equality (used by `list.remove`) faithful: a dict
with `targetHadoop: None` is not equal to a dict without the key.
-/

/-- A JSON scalar as stored in a rule record: Python `None` or a string. -/
inductive JVal where
  | vnull : JVal
  | vstr : String → JVal
deriving DecidableEq, Repr

/-- Python `d.get(k, None)` as seen by the filter comparisons: a present string value
is returned, an absent key or a stored `None` both give Python `None`. -/
def getS : Option JVal → Option String
  | some (JVal.vstr s) => some s
  | _ => none

/-- An impersonation rule record: a dict with the keys this subsystem ever
reads or writes (`type`, `scope`, `dssUser`, `dssGroup`, `projectKey`,
`ruleFrom`, `targetUnix`, `targetHadoop`). -/
structure Rule where
  type : Option JVal := none
  scope : Option JVal := none
  dssUser : Option JVal := none
  dssGroup : Option JVal := none
  projectKey : Option JVal := none
  ruleFrom : Option JVal := none
  targetUnix : Option JVal := none
  targetHadoop : Option JVal := none
deriving DecidableEq, Repr

/-- The `settings['impersonation']` sub-document: the two ordered rule lists. -/
structure Impersonation where
  userRules : List Rule
  groupRules : List Rule
deriving DecidableEq, Repr

/-- Wrap an optional Python-string argument the way the builders store it:
`raw['targetHadoop'] = hadoop_user` writes `None` when the argument is `None`. -/
def jopt : Option String → JVal
  | none => JVal.vnull
  | some s => JVal.vstr s

namespace DSSUserImpersonationRule

/-- Fresh record of `DSSUserImpersonationRule()`: `{'scope':'GLOBAL','type':'IDENTITY'}`. -/
def fresh : Rule :=
  { scope := some (JVal.vstr "GLOBAL"), type := some (JVal.vstr "IDENTITY") }

/-- Builder `scope_global`: sets `raw['scope'] = 'GLOBAL'`. -/
def scope_global (r : Rule) : Rule :=
  { r with scope := some (JVal.vstr "GLOBAL") }

/-- Builder `scope_project`: sets `raw['scope'] = 'PROJECT'` and `raw['projectKey']`. -/
def scope_project (r : Rule) (project_key : String) : Rule :=
  { r with scope := some (JVal.vstr "PROJECT"),
           projectKey := some (JVal.vstr project_key) }

/-- Builder `user_identity`: sets `raw['type'] = 'IDENTITY'` and nothing else. -/
def user_identity (r : Rule) : Rule :=
  { r with type := some (JVal.vstr "IDENTITY") }

/-- Builder `user_single`: sets `type`, `dssUser`, `targetUnix`, `targetHadoop`. -/
def user_single (r : Rule) (dss_user unix_user : String)
    (hadoop_user : Option String := none) : Rule :=
  { r with type := some (JVal.vstr "SINGLE_MAPPING"),
           dssUser := some (JVal.vstr dss_user),
           targetUnix := some (JVal.vstr unix_user),
           targetHadoop := some (jopt hadoop_user) }

/-- Builder `user_regexp`: sets `type`, `ruleFrom`, `targetUnix`, `targetHadoop`. -/
def user_regexp (r : Rule) (regexp unix_user : String)
    (hadoop_user : Option String := none) : Rule :=
  { r with type := some (JVal.vstr "REGEXP_RULE"),
           ruleFrom := some (JVal.vstr regexp),
           targetUnix := some (JVal.vstr unix_user),
           targetHadoop := some (jopt hadoop_user) }

end DSSUserImpersonationRule

namespace DSSGroupImpersonationRule

/-- Fresh record of `DSSGroupImpersonationRule()`: `{'type':'IDENTITY'}`. -/
def fresh : Rule := { type := some (JVal.vstr "IDENTITY") }

/-- Builder `group_identity`: sets `raw['type'] = 'IDENTITY'` and nothing else. -/
def group_identity (r : Rule) : Rule :=
  { r with type := some (JVal.vstr "IDENTITY") }

/-- Builder `group_single`: sets `type`, `dssGroup`, `targetUnix`, `targetHadoop`. -/
def group_single (r : Rule) (dss_group unix_user : String)
    (hadoop_user : Option String := none) : Rule :=
  { r with type := some (JVal.vstr "SINGLE_MAPPING"),
           dssGroup := some (JVal.vstr dss_group),
           targetUnix := some (JVal.vstr unix_user),
           targetHadoop := some (jopt hadoop_user) }

/-- Builder `group_regexp`: sets `type`, `ruleFrom`, `targetUnix`, `targetHadoop`. -/
def group_regexp (r : Rule) (regexp unix_user : String)
    (hadoop_user : Option String := none) : Rule :=
  { r with type := some (JVal.vstr "REGEXP_RULE"),
           ruleFrom := some (JVal.vstr regexp),
           targetUnix := some (JVal.vstr unix_user),
           targetHadoop := some (jopt hadoop_user) }

end DSSGroupImpersonationRule

/-- The `rule` argument of `add_impersonation_rule`: either a
`DSSUserImpersonationRule` wrapper, a `DSSGroupImpersonationRule` wrapper
(each carrying its backing raw record), or a plain dict. -/
inductive RuleArg where
  | userWrapper (raw : Rule)
  | groupWrapper (raw : Rule)
  | plain (raw : Rule)
deriving DecidableEq, Repr

/-- Method `DSSGeneralSettings.add_impersonation_rule`: the `isinstance` branches
override `is_user_rule`; the flag is consulted only for a plain dict. -/
def add_impersonation_rule (s : Impersonation) (rule : RuleArg)
    (is_user_rule : Bool := true) : Impersonation :=
  match rule with
  | RuleArg.userWrapper raw => { s with userRules := s.userRules ++ [raw] }
  | RuleArg.groupWrapper raw => { s with groupRules := s.groupRules ++ [raw] }
  | RuleArg.plain raw =>
    if is_user_rule then { s with userRules := s.userRules ++ [raw] }
    else { s with groupRules := s.groupRules ++ [raw] }

/-- The keyword arguments of `get_impersonation_rules` /
`remove_impersonation_rules`; `none` is Python `None` (filter not supplied). -/
structure Filters where
  dss_user : Option String := none
  dss_group : Option String := none
  unix_user : Option String := none
  hadoop_user : Option String := none
  project_key : Option String := none
  scope : Option String := none
  rule_type : Option String := none
  is_user : Option Bool := none
deriving DecidableEq, Repr

/-- One filter step of `get_impersonation_rules`:
`if arg is not None: matches = [m for m in matches if arg == m.get(key, None)]`. -/
def optFilter (arg : Option String) (field : Rule → Option JVal)
    (ms : List Rule) : List Rule :=
  match arg with
  | none => ms
  | some v => ms.filter (fun m => getS (field m) == some v)

/-- The `user_matches` list computed by `get_impersonation_rules`: the filter
steps in source order (dss_user, unix_user, hadoop_user, project_key,
rule_type, scope). -/
def userMatches (s : Impersonation) (F : Filters) : List Rule :=
  optFilter F.scope (fun m => m.scope)
    (optFilter F.rule_type (fun m => m.type)
      (optFilter F.project_key (fun m => m.projectKey)
        (optFilter F.hadoop_user (fun m => m.targetHadoop)
          (optFilter F.unix_user (fun m => m.targetUnix)
            (optFilter F.dss_user (fun m => m.dssUser)
              (if F.is_user = none ∨ F.is_user = some true then s.userRules else []))))))

/-- The `group_matches` list computed by `get_impersonation_rules`: the filter
steps in source order (dss_group, unix_user, hadoop_user, rule_type); note the
source does filter group rules by `rule_type`, and never by `project_key`. -/
def groupMatches (s : Impersonation) (F : Filters) : List Rule :=
  optFilter F.rule_type (fun m => m.type)
    (optFilter F.hadoop_user (fun m => m.targetHadoop)
      (optFilter F.unix_user (fun m => m.targetUnix)
        (optFilter F.dss_group (fun m => m.dssGroup)
          (if F.is_user = none ∨ F.is_user = some false then s.groupRules else []))))

/-- A rule view returned by `get_impersonation_rules`: a
`DSSUserImpersonationRule` or `DSSGroupImpersonationRule` wrapping a raw
record from the settings document. -/
inductive RuleView where
  | userView (raw : Rule)
  | groupView (raw : Rule)
deriving DecidableEq, Repr

/-- Method `DSSGeneralSettings.get_impersonation_rules`: user-rule matches wrapped as
user views, followed by group-rule matches wrapped as group views. -/
def get_impersonation_rules (s : Impersonation) (F : Filters) : List RuleView :=
  (userMatches s F).map RuleView.userView ++ (groupMatches s F).map RuleView.groupView

/-- Python `list.remove(x)`: delete the first element equal to `x`; `none`
models the `ValueError` raised when no element is equal. -/
def removeFirst (x : Rule) : List Rule → Option (List Rule)
  | [] => none
  | y :: ys => if y = x then some ys else (removeFirst x ys).map (fun l => y :: l)

/-- One iteration of the removal loop of `remove_impersonation_rules`:
dispatch on the view's wrapper class and remove its raw record from the
corresponding list. -/
def removeStep (st : Impersonation) : RuleView → Option Impersonation
  | RuleView.userView raw =>
    (removeFirst raw st.userRules).map (fun ur => { st with userRules := ur })
  | RuleView.groupView raw =>
    (removeFirst raw st.groupRules).map (fun gr => { st with groupRules := gr })

/-- Method `DSSGeneralSettings.remove_impersonation_rules`: query once with the given
filters, then remove each match's raw record from the live lists; `none`
models a `ValueError` escaping the loop. -/
def remove_impersonation_rules (s : Impersonation) (F : Filters) :
    Option Impersonation :=
  (get_impersonation_rules s F).foldlM removeStep s

/-!  `DSSCodeEnv.delete` error handling. -/

/-- The `messages` sub-dict of a code-env deletion response: an optional
`error` flag and an optional inner `messages` payload (kept opaque as a list
of strings). -/
structure CodeEnvMessages where
  error : Option Bool := none
  messages : Option (List String) := none
deriving DecidableEq, Repr

/-- A parsed JSON response to the code-env DELETE call, with its optional
`messages` sub-dict. -/
structure CodeEnvResponse where
  messages : Option CodeEnvMessages := none
deriving DecidableEq, Repr

/-- Expression `resp.get('messages', {}).get('error', False)`. -/
def envErrorFlag (r : CodeEnvResponse) : Bool :=
  (r.messages.bind CodeEnvMessages.error).getD false

/-- Expression `resp.get('messages', {}).get('messages', {})` — the payload put into the
raised exception's text. -/
def envErrorMessages (r : CodeEnvResponse) : List String :=
  (r.messages.bind CodeEnvMessages.messages).getD []

/-- The outcome of `DSSCodeEnv.delete`: the returned response, or one of the
two raised exceptions. -/
inductive CodeEnvDeleteResult where
  | ok (resp : CodeEnvResponse)
  | errNoData
  | errFailed (messages : List String)
deriving DecidableEq, Repr

/-- Method `DSSCodeEnv.delete`, as a function of the transport response (`none`
models a `None` response from `_perform_json`). -/
def DSSCodeEnv.delete (resp : Option CodeEnvResponse) : CodeEnvDeleteResult :=
  match resp with
  | none => CodeEnvDeleteResult.errNoData
  | some r =>
    if envErrorFlag r then CodeEnvDeleteResult.errFailed (envErrorMessages r)
    else CodeEnvDeleteResult.ok r

/-!  Concrete records for witnesses and the concrete scenario of the spec. -/

/-- Record `{type: IDENTITY, scope: GLOBAL}` — the first user rule of the spec's
concrete scenario. -/
def ruleIdGlobal : Rule :=
  { type := some (JVal.vstr "IDENTITY"), scope := some (JVal.vstr "GLOBAL") }

/-- Record `{type: SINGLE_MAPPING, scope: PROJECT, projectKey: "P1", dssUser:
"alice", targetUnix: "u_alice"}` — the second user rule of the spec's
concrete scenario. -/
def ruleAliceP1 : Rule :=
  { type := some (JVal.vstr "SINGLE_MAPPING"), scope := some (JVal.vstr "PROJECT"),
    projectKey := some (JVal.vstr "P1"), dssUser := some (JVal.vstr "alice"),
    targetUnix := some (JVal.vstr "u_alice") }

/-- The settings document of the spec's concrete scenario: the two user rules
above and no group rules. -/
def scenarioSettings : Impersonation :=
  { userRules := [ruleIdGlobal, ruleAliceP1], groupRules := [] }

/-- The filter combination `project_key="P1"` (all other arguments left at
their `None` defaults). -/
def filterP1 : Filters := { project_key := some "P1" }

/-!  Normal form of the query: each optional filter step is a `List.filter`. -/

/-- The predicate a single supplied filter applies to a stored field (`true`
when the filter argument is absent). -/
def optPred (arg : Option String) (f : Option JVal) : Bool :=
  match arg with
  | none => true
  | some v => getS f == some v

theorem optFilter_eq_filter (arg : Option String) (field : Rule → Option JVal)
    (ms : List Rule) :
    optFilter arg field ms = ms.filter (fun m => optPred arg (field m)) := by
  cases arg <;> simp [optFilter, optPred]

/-- The candidate user-rule list before field filters: the whole list unless
`is_user == False`. -/
def userBase (s : Impersonation) (F : Filters) : List Rule :=
  if F.is_user = none ∨ F.is_user = some true then s.userRules else []

/-- The candidate group-rule list before field filters: the whole list unless
`is_user == True`. -/
def groupBase (s : Impersonation) (F : Filters) : List Rule :=
  if F.is_user = none ∨ F.is_user = some false then s.groupRules else []

/-- The conjunction of the six field filters applied to a user rule. -/
def userPred (F : Filters) (m : Rule) : Bool :=
  optPred F.scope m.scope &&
    (optPred F.rule_type m.type &&
      (optPred F.project_key m.projectKey &&
        (optPred F.hadoop_user m.targetHadoop &&
          (optPred F.unix_user m.targetUnix && optPred F.dss_user m.dssUser))))

/-- The conjunction of the four field filters applied to a group rule. -/
def groupPred (F : Filters) (m : Rule) : Bool :=
  optPred F.rule_type m.type &&
    (optPred F.hadoop_user m.targetHadoop &&
      (optPred F.unix_user m.targetUnix && optPred F.dss_group m.dssGroup))

theorem userMatches_eq (s : Impersonation) (F : Filters) :
    userMatches s F = (userBase s F).filter (userPred F) := by
  simp only [userMatches, optFilter_eq_filter, List.filter_filter]
  rfl

theorem groupMatches_eq (s : Impersonation) (F : Filters) :
    groupMatches s F = (groupBase s F).filter (groupPred F) := by
  simp only [groupMatches, optFilter_eq_filter, List.filter_filter]
  rfl

theorem get_impersonation_rules_eq (s : Impersonation) (F : Filters) :
    get_impersonation_rules s F =
      ((userBase s F).filter (userPred F)).map RuleView.userView ++
        ((groupBase s F).filter (groupPred F)).map RuleView.groupView := by
  rw [get_impersonation_rules, userMatches_eq, groupMatches_eq]

/-!  Removal: `list.remove` loop semantics. -/

/-- Remove, in order, each value of `ms` from `l` (first structurally-equal
occurrence each time); `none` when some `list.remove` call would raise. -/
def removeAll : List Rule → List Rule → Option (List Rule)
  | [], l => some l
  | x :: xs, l => (removeFirst x l).bind (removeAll xs)

theorem removeFirst_of_mem {x : Rule} {l : List Rule} (h : x ∈ l) :
    removeFirst x l = some (l.erase x) := by
  induction l with
  | nil => cases h
  | cons y ys ih =>
    by_cases hyx : y = x
    · subst hyx
      simp [removeFirst]
    · have hx : x ∈ ys := by
        rcases List.mem_cons.mp h with h1 | h1
        · exact absurd h1.symm hyx
        · exact h1
      rw [List.erase_cons]
      simp [removeFirst, hyx, ih hx, beq_iff_eq]

theorem foldlM_userViews (ul : List Rule) (st : Impersonation) :
    (ul.map RuleView.userView).foldlM removeStep st
      = (removeAll ul st.userRules).map (fun ur => { st with userRules := ur }) := by
  induction ul generalizing st with
  | nil => simp [removeAll]
  | cons x xs ih =>
    simp only [List.map_cons, List.foldlM_cons, removeStep, removeAll]
    cases h : removeFirst x st.userRules with
    | none => simp [h]
    | some ur =>
      simp only [h, Option.map_some, Option.some_bind, Option.bind_some]
      exact ih { st with userRules := ur }

theorem foldlM_groupViews (gl : List Rule) (st : Impersonation) :
    (gl.map RuleView.groupView).foldlM removeStep st
      = (removeAll gl st.groupRules).map (fun gr => { st with groupRules := gr }) := by
  induction gl generalizing st with
  | nil => simp [removeAll]
  | cons x xs ih =>
    simp only [List.map_cons, List.foldlM_cons, removeStep, removeAll]
    cases h : removeFirst x st.groupRules with
    | none => simp [h]
    | some gr =>
      simp only [h, Option.map_some, Option.some_bind, Option.bind_some]
      exact ih { st with groupRules := gr }

/-- The removal loop decomposes: first all user-view removals against
`userRules`, then all group-view removals against `groupRules`. -/
theorem remove_impersonation_rules_eq (s : Impersonation) (F : Filters) :
    remove_impersonation_rules s F =
      (removeAll (userMatches s F) s.userRules).bind (fun ur =>
        (removeAll (groupMatches s F) s.groupRules).map (fun gr =>
          { userRules := ur, groupRules := gr })) := by
  unfold remove_impersonation_rules get_impersonation_rules
  rw [List.foldlM_append, foldlM_userViews]
  cases h : removeAll (userMatches s F) s.userRules with
  | none => simp
  | some ur =>
    simp only [Option.map_some, Option.some_bind, Option.bind_some]
    exact foldlM_groupViews (groupMatches s F) { s with userRules := ur }

theorem optFilter_sublist (arg : Option String) (field : Rule → Option JVal)
    (ms : List Rule) : (optFilter arg field ms).Sublist ms := by
  cases arg with
  | none => exact List.Sublist.refl ms
  | some v => exact List.filter_sublist ms

theorem userMatches_sublist (s : Impersonation) (F : Filters) :
    (userMatches s F).Sublist s.userRules := by
  have hbase : (if F.is_user = none ∨ F.is_user = some true then s.userRules
      else []).Sublist s.userRules := by
    split
    · exact List.Sublist.refl _
    · exact List.nil_sublist _
  exact ((optFilter_sublist _ _ _).trans ((optFilter_sublist _ _ _).trans
    ((optFilter_sublist _ _ _).trans ((optFilter_sublist _ _ _).trans
      ((optFilter_sublist _ _ _).trans ((optFilter_sublist _ _ _).trans hbase))))))

theorem groupMatches_sublist (s : Impersonation) (F : Filters) :
    (groupMatches s F).Sublist s.groupRules := by
  have hbase : (if F.is_user = none ∨ F.is_user = some false then s.groupRules
      else []).Sublist s.groupRules := by
    split
    · exact List.Sublist.refl _
    · exact List.nil_sublist _
  exact ((optFilter_sublist _ _ _).trans ((optFilter_sublist _ _ _).trans
    ((optFilter_sublist _ _ _).trans ((optFilter_sublist _ _ _).trans hbase))))

/-- Removing the values of a sublist never hits the `ValueError` branch, and
shortens the list by exactly the number of removed values. -/
theorem removeAll_of_sublist {ms l : List Rule} (h : ms.Sublist l) :
    ∃ l', removeAll ms l = some l' ∧ l'.length + ms.length = l.length := by
  induction ms generalizing l with
  | nil => exact ⟨l, rfl, by simp [removeAll]⟩
  | cons x xs ih =>
    have hx : x ∈ l := h.subset (List.mem_cons_self x xs)
    have hsub : xs.Sublist (l.erase x) := by
      have h2 := h.erase x
      rwa [List.erase_cons_head] at h2
    obtain ⟨l', hl', hlen⟩ := ih hsub
    have hel : (l.erase x).length = l.length - 1 := List.length_erase_of_mem hx
    have hpos : 0 < l.length := List.length_pos_of_mem hx
    refine ⟨l', ?_, ?_⟩
    · simp [removeAll, removeFirst_of_mem hx, hl']
    · simp only [List.length_cons]
      omega

theorem removeAll_cons_of_not_mem {x : Rule} {ms : List Rule} (h : x ∉ ms)
    (l : List Rule) :
    removeAll ms (x :: l) = (removeAll ms l).map (fun t => x :: t) := by
  induction ms generalizing l with
  | nil => rfl
  | cons y ys ih =>
    have hxy : ¬ (x = y) := fun e => h (e ▸ List.mem_cons_self y ys)
    have hys : x ∉ ys := fun hm => h (List.mem_cons_of_mem y hm)
    simp only [removeAll, removeFirst, if_neg hxy]
    cases hr : removeFirst y l with
    | none => simp
    | some t =>
      simp only [Option.map_some, Option.some_bind]
      exact ih hys t

/-- On a duplicate-free list, removing every value matching `p` leaves
exactly the values not matching `p`. -/
theorem removeAll_filter (p : Rule → Bool) {l : List Rule} (h : l.Nodup) :
    removeAll (l.filter p) l = some (l.filter (fun x => !(p x))) := by
  induction l with
  | nil => rfl
  | cons x xs ih =>
    have hx : x ∉ xs := (List.nodup_cons.mp h).1
    have hnd : xs.Nodup := (List.nodup_cons.mp h).2
    by_cases hp : p x
    · rw [List.filter_cons_of_pos hp]
      have hhead : removeFirst x (x :: xs) = some xs := by simp [removeFirst]
      simp only [removeAll, hhead, Option.some_bind, ih hnd]
      rw [List.filter_cons_of_neg (by simp [hp])]
    · rw [List.filter_cons_of_neg hp,
        removeAll_cons_of_not_mem (fun hm => hx (List.mem_of_mem_filter hm)) xs,
        ih hnd, List.filter_cons_of_pos (by simp [hp])]
      rfl

/-- C2: on the spec's concrete scenario, `get_impersonation_rules
(project_key="P1")` returns exactly the second record as a user-rule view;
removing with the same filter succeeds, leaves `userRules = [first record]`,
and a repeated query returns the empty sequence. -/
theorem concrete_scenario_query_then_remove :
    get_impersonation_rules scenarioSettings filterP1
        = [RuleView.userView ruleAliceP1] ∧
      remove_impersonation_rules scenarioSettings filterP1
        = some { userRules := [ruleIdGlobal], groupRules := [] } ∧
      get_impersonation_rules { userRules := [ruleIdGlobal], groupRules := [] }
          filterP1 = [] := by
  decide

/-- C4: with every filter argument left at `None`, `get_impersonation_rules`
returns all user rules in original order, as user-rule views, immediately
followed by all group rules in original order, as group-rule views.  (The
query is a pure function of the settings document here, so the document is
unmodified by construction.) -/
theorem query_unfiltered_order_preserved (s : Impersonation) :
    get_impersonation_rules s {} =
      s.userRules.map RuleView.userView ++ s.groupRules.map RuleView.groupView := by
  rfl

/-- C6: whatever the prior state of the backing record, `user_single` /
`group_single` leave `type = 'SINGLE_MAPPING'`, `dssUser`/`dssGroup`,
`targetUnix`, and `targetHadoop` set from their arguments; an omitted hadoop
argument is stored as `None` (no fallback to the unix user). -/
theorem single_sets_terminal_fields (r : Rule) (u t : String)
    (hd : Option String) :
    ((DSSUserImpersonationRule.user_single r u t hd).type
          = some (JVal.vstr "SINGLE_MAPPING") ∧
        (DSSUserImpersonationRule.user_single r u t hd).dssUser
          = some (JVal.vstr u) ∧
        (DSSUserImpersonationRule.user_single r u t hd).targetUnix
          = some (JVal.vstr t) ∧
        (DSSUserImpersonationRule.user_single r u t hd).targetHadoop
          = some (jopt hd) ∧
        (DSSUserImpersonationRule.user_single r u t).targetHadoop
          = some JVal.vnull) ∧
      ((DSSGroupImpersonationRule.group_single r u t hd).type
          = some (JVal.vstr "SINGLE_MAPPING") ∧
        (DSSGroupImpersonationRule.group_single r u t hd).dssGroup
          = some (JVal.vstr u) ∧
        (DSSGroupImpersonationRule.group_single r u t hd).targetUnix
          = some (JVal.vstr t) ∧
        (DSSGroupImpersonationRule.group_single r u t hd).targetHadoop
          = some (jopt hd) ∧
        (DSSGroupImpersonationRule.group_single r u t).targetHadoop
          = some JVal.vnull) :=
  ⟨⟨rfl, rfl, rfl, rfl, rfl⟩, ⟨rfl, rfl, rfl, rfl, rfl⟩⟩

/-- C8: the builders `user_identity` / `group_identity` set `type = 'IDENTITY'` and leave
every other field of the backing record exactly as it was (stale fields from
a prior type persist). -/
theorem identity_sets_only_type (r : Rule) :
    ((DSSUserImpersonationRule.user_identity r).type
          = some (JVal.vstr "IDENTITY") ∧
        (DSSUserImpersonationRule.user_identity r).scope = r.scope ∧
        (DSSUserImpersonationRule.user_identity r).dssUser = r.dssUser ∧
        (DSSUserImpersonationRule.user_identity r).dssGroup = r.dssGroup ∧
        (DSSUserImpersonationRule.user_identity r).projectKey = r.projectKey ∧
        (DSSUserImpersonationRule.user_identity r).ruleFrom = r.ruleFrom ∧
        (DSSUserImpersonationRule.user_identity r).targetUnix = r.targetUnix ∧
        (DSSUserImpersonationRule.user_identity r).targetHadoop = r.targetHadoop) ∧
      ((DSSGroupImpersonationRule.group_identity r).type
          = some (JVal.vstr "IDENTITY") ∧
        (DSSGroupImpersonationRule.group_identity r).scope = r.scope ∧
        (DSSGroupImpersonationRule.group_identity r).dssUser = r.dssUser ∧
        (DSSGroupImpersonationRule.group_identity r).dssGroup = r.dssGroup ∧
        (DSSGroupImpersonationRule.group_identity r).projectKey = r.projectKey ∧
        (DSSGroupImpersonationRule.group_identity r).ruleFrom = r.ruleFrom ∧
        (DSSGroupImpersonationRule.group_identity r).targetUnix = r.targetUnix ∧
        (DSSGroupImpersonationRule.group_identity r).targetHadoop = r.targetHadoop) :=
  ⟨⟨rfl, rfl, rfl, rfl, rfl, rfl, rfl, rfl⟩,
    ⟨rfl, rfl, rfl, rfl, rfl, rfl, rfl, rfl⟩⟩

/-- C9: the method `DSSCodeEnv.delete` raises the no-data error exactly when the
response is `None`; raises the failure error, carrying the response's
messages, exactly when the `messages.error` flag is truthy; and otherwise
returns the response unchanged. -/
theorem code_env_delete_error_cases (resp : Option CodeEnvResponse) :
    (DSSCodeEnv.delete resp = CodeEnvDeleteResult.errNoData ↔ resp = none) ∧
      (∀ msgs, DSSCodeEnv.delete resp = CodeEnvDeleteResult.errFailed msgs ↔
        ∃ r, resp = some r ∧ envErrorFlag r = true ∧ msgs = envErrorMessages r) ∧
      (∀ r, DSSCodeEnv.delete resp = CodeEnvDeleteResult.ok r ↔
        resp = some r ∧ envErrorFlag r = false) := by
  cases resp with
  | none =>
    refine ⟨by simp [DSSCodeEnv.delete], fun msgs => ?_, fun r => ?_⟩
    · simp [DSSCodeEnv.delete]
    · simp [DSSCodeEnv.delete]
  | some r =>
    cases h : envErrorFlag r with
    | true =>
      have hd : DSSCodeEnv.delete (some r)
          = CodeEnvDeleteResult.errFailed (envErrorMessages r) := by
        simp [DSSCodeEnv.delete, h]
      rw [hd]
      refine ⟨⟨fun he => CodeEnvDeleteResult.noConfusion he,
          fun hn => Option.noConfusion hn⟩, fun msgs => ?_, fun r2 => ?_⟩
      · constructor
        · intro he
          injection he with he
          exact ⟨r, rfl, h, he.symm⟩
        · rintro ⟨r2, hr2, hf2, hm⟩
          injection hr2 with e
          subst e
          rw [hm]
      · constructor
        · intro he
          exact CodeEnvDeleteResult.noConfusion he
        · rintro ⟨hr2, hf2⟩
          injection hr2 with e
          subst e
          rw [h] at hf2
          exact Bool.noConfusion hf2
    | false =>
      have hd : DSSCodeEnv.delete (some r) = CodeEnvDeleteResult.ok r := by
        simp [DSSCodeEnv.delete, h]
      rw [hd]
      refine ⟨⟨fun he => CodeEnvDeleteResult.noConfusion he,
          fun hn => Option.noConfusion hn⟩, fun msgs => ?_, fun r2 => ?_⟩
      · constructor
        · intro he
          exact CodeEnvDeleteResult.noConfusion he
        · rintro ⟨r2, hr2, hf2, hm⟩
          injection hr2 with e
          subst e
          rw [h] at hf2
          exact Bool.noConfusion hf2
      · constructor
        · intro he
          injection he with e
          subst e
          exact ⟨rfl, h⟩
        · rintro ⟨hr2, hf2⟩
          injection hr2 with e
          subst e
          rfl

/-- C10: the wrapper class of the `rule` argument overrides `is_user_rule`:
a user-rule wrapper always appends to `userRules` and a group-rule wrapper
always appends to `groupRules`, whatever the flag; the flag selects the
destination list only for a plain dict. -/
theorem add_rule_wrapper_overrides_flag (s : Impersonation) (raw : Rule)
    (b : Bool) :
    add_impersonation_rule s (RuleArg.userWrapper raw) b
        = { s with userRules := s.userRules ++ [raw] } ∧
      add_impersonation_rule s (RuleArg.groupWrapper raw) b
        = { s with groupRules := s.groupRules ++ [raw] } ∧
      add_impersonation_rule s (RuleArg.plain raw) true
        = { s with userRules := s.userRules ++ [raw] } ∧
      add_impersonation_rule s (RuleArg.plain raw) false
        = { s with groupRules := s.groupRules ++ [raw] } :=
  ⟨rfl, rfl, rfl, rfl⟩

/-- C7: for every settings document and filter combination, the removal loop
never hits the `ValueError` branch of `list.remove` (each matched view's raw
record is still present when its turn comes), and the total number of stored
rules drops by exactly the number of matches the query returned. -/
theorem remove_removes_exactly_the_matches (s : Impersonation) (F : Filters) :
    ∃ s', remove_impersonation_rules s F = some s' ∧
      s'.userRules.length + s'.groupRules.length
          + (get_impersonation_rules s F).length
        = s.userRules.length + s.groupRules.length := by
  obtain ⟨ur, hur, hlu⟩ := removeAll_of_sublist (userMatches_sublist s F)
  obtain ⟨gr, hgr, hlg⟩ := removeAll_of_sublist (groupMatches_sublist s F)
  refine ⟨{ userRules := ur, groupRules := gr }, ?_, ?_⟩
  · rw [remove_impersonation_rules_eq, hur, hgr]
    rfl
  · have hq : (get_impersonation_rules s F).length
        = (userMatches s F).length + (groupMatches s F).length := by
      simp [get_impersonation_rules]
    simp only [hq]
    omega

/-- Group-rule views among a query result. -/
def isGroupView : RuleView → Bool
  | RuleView.userView _ => false
  | RuleView.groupView _ => true

/-- C1 counterexample: a settings document with a single group rule of type
`IDENTITY` and the single filter `rule_type="SINGLE_MAPPING"`.  The group
rule survives every other filter (none is supplied), yet the query returns
nothing — the source does filter group rules by `rule_type` (while an
unfiltered query does return the group rule). -/
theorem group_rule_dropped_by_rule_type :
    get_impersonation_rules
        { userRules := [], groupRules := [{ type := some (JVal.vstr "IDENTITY") }] }
        { rule_type := some "SINGLE_MAPPING" } = [] ∧
      get_impersonation_rules
        { userRules := [], groupRules := [{ type := some (JVal.vstr "IDENTITY") }] }
        {} = [RuleView.groupView { type := some (JVal.vstr "IDENTITY") }] := by
  decide

/-- C1 amended: the `project_key` filter narrows only the user-rule set —
the group-rule views returned are identical for every value of
`project_key` — whereas `rule_type` does narrow the group-rule set (there
are a document and filters on which changing `rule_type` to `None` changes
the returned group-rule views). -/
theorem group_matches_ignore_project_key (s : Impersonation) (F : Filters)
    (pk : Option String) :
    ((get_impersonation_rules s { F with project_key := pk }).filter isGroupView
        = (get_impersonation_rules s F).filter isGroupView) ∧
      ∃ s2 F2, (get_impersonation_rules s2 F2).filter isGroupView
          ≠ (get_impersonation_rules s2 { F2 with rule_type := none }).filter
              isGroupView := by
  constructor
  · have huser : ∀ (l : List Rule),
        (l.map RuleView.userView).filter isGroupView = [] := by
      intro l
      induction l with
      | nil => rfl
      | cons x xs ih => simp [isGroupView, ih]
    have hgroup : ∀ (l : List Rule),
        (l.map RuleView.groupView).filter isGroupView = l.map RuleView.groupView := by
      intro l
      induction l with
      | nil => rfl
      | cons x xs ih => simp [isGroupView, ih]
    rw [get_impersonation_rules, get_impersonation_rules, List.filter_append,
      List.filter_append, huser, huser, hgroup, hgroup]
    rfl
  · exact ⟨{ userRules := [], groupRules := [{ type := some (JVal.vstr "IDENTITY") }] },
      { rule_type := some "SINGLE_MAPPING" }, by decide⟩

/-- C3: on a settings document whose user-rule list and group-rule list are
each free of structurally-equal duplicates, removing with any filter
combination succeeds, and querying again with the same filters returns the
empty sequence. -/
theorem remove_then_query_empty_of_nodup (s : Impersonation) (F : Filters)
    (hu : s.userRules.Nodup) (hg : s.groupRules.Nodup) :
    ∃ s', remove_impersonation_rules s F = some s' ∧
      get_impersonation_rules s' F = [] := by
  have HU : ∃ ur, removeAll (userMatches s F) s.userRules = some ur ∧
      (if F.is_user = none ∨ F.is_user = some true then ur else []).filter
        (userPred F) = [] := by
    by_cases hcu : F.is_user = none ∨ F.is_user = some true
    · refine ⟨s.userRules.filter (fun x => !(userPred F x)), ?_, ?_⟩
      · rw [userMatches_eq, userBase, if_pos hcu]
        exact removeAll_filter (userPred F) hu
      · rw [if_pos hcu, List.filter_filter]
        simp
    · refine ⟨s.userRules, ?_, ?_⟩
      · rw [userMatches_eq, userBase, if_neg hcu]
        rfl
      · rw [if_neg hcu]
        rfl
  have HG : ∃ gr, removeAll (groupMatches s F) s.groupRules = some gr ∧
      (if F.is_user = none ∨ F.is_user = some false then gr else []).filter
        (groupPred F) = [] := by
    by_cases hcg : F.is_user = none ∨ F.is_user = some false
    · refine ⟨s.groupRules.filter (fun x => !(groupPred F x)), ?_, ?_⟩
      · rw [groupMatches_eq, groupBase, if_pos hcg]
        exact removeAll_filter (groupPred F) hg
      · rw [if_pos hcg, List.filter_filter]
        simp
    · refine ⟨s.groupRules, ?_, ?_⟩
      · rw [groupMatches_eq, groupBase, if_neg hcg]
        rfl
      · rw [if_neg hcg]
        rfl
  obtain ⟨ur, hur, hqu⟩ := HU
  obtain ⟨gr, hgr, hqg⟩ := HG
  refine ⟨{ userRules := ur, groupRules := gr }, ?_, ?_⟩
  · rw [remove_impersonation_rules_eq, hur, hgr]
    rfl
  · rw [get_impersonation_rules_eq, userBase, groupBase]
    dsimp only
    rw [hqu, hqg]
    rfl

/-- Witness for C3 at the spec's concrete scenario. -/
theorem remove_then_query_empty_of_nodup_witness :
    scenarioSettings.userRules.Nodup ∧ scenarioSettings.groupRules.Nodup ∧
      ∃ s', remove_impersonation_rules scenarioSettings filterP1 = some s' ∧
        get_impersonation_rules s' filterP1 = [] :=
  ⟨by decide, by decide,
    remove_then_query_empty_of_nodup scenarioSettings filterP1 (by decide) (by decide)⟩

/-- Predicate: `F2` supplies every filter that `F1` supplies, with the same value
(`F2` may supply more). -/
def Filters.Refines (F2 F1 : Filters) : Prop :=
  (F1.dss_user ≠ none → F2.dss_user = F1.dss_user) ∧
    (F1.dss_group ≠ none → F2.dss_group = F1.dss_group) ∧
    (F1.unix_user ≠ none → F2.unix_user = F1.unix_user) ∧
    (F1.hadoop_user ≠ none → F2.hadoop_user = F1.hadoop_user) ∧
    (F1.project_key ≠ none → F2.project_key = F1.project_key) ∧
    (F1.scope ≠ none → F2.scope = F1.scope) ∧
    (F1.rule_type ≠ none → F2.rule_type = F1.rule_type) ∧
    (F1.is_user ≠ none → F2.is_user = F1.is_user)

/-- C5: the query narrows monotonically — whenever `F2` keeps every supplied
filter of `F1` (adding any number of further filters), the result under `F2`
is a subsequence of the result under `F1`. -/
theorem query_refined_filters_sublist (s : Impersonation) (F1 F2 : Filters)
    (h : Filters.Refines F2 F1) :
    (get_impersonation_rules s F2).Sublist (get_impersonation_rules s F1) := by
  obtain ⟨hdu, hdg, hux, hhd, hpk, hsc, hrt, hiu⟩ := h
  have hOP : ∀ (o1 o2 : Option String) (f : Option JVal),
      (o1 ≠ none → o2 = o1) → optPred o2 f = true → optPred o1 f = true := by
    intro o1 o2 f himp hp
    cases o1 with
    | none => rfl
    | some v =>
      rw [himp (by simp)] at hp
      exact hp
  have huimp : ∀ m, userPred F2 m = true → userPred F1 m = true := by
    intro m hm
    simp only [userPred, Bool.and_eq_true] at hm ⊢
    exact ⟨hOP _ _ _ hsc hm.1, hOP _ _ _ hrt hm.2.1, hOP _ _ _ hpk hm.2.2.1,
      hOP _ _ _ hhd hm.2.2.2.1, hOP _ _ _ hux hm.2.2.2.2.1,
      hOP _ _ _ hdu hm.2.2.2.2.2⟩
  have hgimp : ∀ m, groupPred F2 m = true → groupPred F1 m = true := by
    intro m hm
    simp only [groupPred, Bool.and_eq_true] at hm ⊢
    exact ⟨hOP _ _ _ hrt hm.1, hOP _ _ _ hhd hm.2.1, hOP _ _ _ hux hm.2.2.1,
      hOP _ _ _ hdg hm.2.2.2⟩
  have hub : (userBase s F2).Sublist (userBase s F1) := by
    unfold userBase
    cases h1 : F1.is_user with
    | none =>
      rw [if_pos (Or.inl rfl)]
      split
      · exact List.Sublist.refl _
      · exact List.nil_sublist _
    | some b =>
      rw [hiu (by simp [h1]), h1]
  have hgb : (groupBase s F2).Sublist (groupBase s F1) := by
    unfold groupBase
    cases h1 : F1.is_user with
    | none =>
      rw [if_pos (Or.inl rfl)]
      split
      · exact List.Sublist.refl _
      · exact List.nil_sublist _
    | some b =>
      rw [hiu (by simp [h1]), h1]
  rw [get_impersonation_rules_eq, get_impersonation_rules_eq]
  exact List.Sublist.append
    (((hub.filter (userPred F2)).trans
      (List.monotone_filter_right _ huimp)).map RuleView.userView)
    (((hgb.filter (groupPred F2)).trans
      (List.monotone_filter_right _ hgimp)).map RuleView.groupView)

/-- Witness for C5: the single filter `project_key="P1"` refines the empty
filter set, and on the concrete scenario the refined query's result is a
subsequence of the unfiltered one. -/
theorem query_refined_filters_sublist_witness :
    Filters.Refines filterP1 {} ∧
      (get_impersonation_rules scenarioSettings filterP1).Sublist
        (get_impersonation_rules scenarioSettings {}) :=
  ⟨⟨fun h => absurd rfl h, fun h => absurd rfl h, fun h => absurd rfl h,
      fun h => absurd rfl h, fun h => absurd rfl h, fun h => absurd rfl h,
      fun h => absurd rfl h, fun h => absurd rfl h⟩,
    query_refined_filters_sublist scenarioSettings {} filterP1
      ⟨fun h => absurd rfl h, fun h => absurd rfl h, fun h => absurd rfl h,
        fun h => absurd rfl h, fun h => absurd rfl h, fun h => absurd rfl h,
        fun h => absurd rfl h, fun h => absurd rfl h⟩⟩
